import Mathlib

/-!
# Verification of the studymanager orchestrator

Shallow embedding of `src/python/code_saturne/base/cs_studymanager.py`
(option processing, the `run_studymanager` entry point, `send_report` and
`send_mail`), together with models of the orchestration components that the
specification describes (dependency graph, filter, batch planner, case
lifecycle, result aggregator) whose implementing module
`code_saturne.studymanager.cs_studymanager_study` is outside the sources at
hand.
-/

namespace StudyManager

/-- Case lifecycle statuses (spec section 4.4). -/
inductive Status where
  | pending
  | queued
  | running
  | completed
  | failed
  | compared
  | matched
  | mismatched
  | reported
  | skipped
deriving DecidableEq

/-- Python exceptions that the embedded fragments can raise. -/
inductive PyErr where
  | nameError (ident : String)
deriving DecidableEq

/-- The option fields of `process_cmd_line` that `run_studymanager` consults.
`addresses` holds the result of `options.addresses.split()`: the raw option is
a string, and the empty default splits to the empty list. -/
structure Opts where
  update_setup : Bool
  test_compilation : Bool
  runcase : Bool
  casestate : Bool
  compare : Bool
  post : Bool
  sheet : Bool
  create_xml : Bool
  addresses : List String
  slurm_batch_size : Int
deriving DecidableEq

/-- The defaults installed by the `parser.add_option` calls of
`process_cmd_line` for the fields above: every Boolean flag defaults to
`False`, `addresses` to the empty string (which splits to the empty list) and
`slurm_batch_size` to `0`. -/
def default_options : Opts :=
  { update_setup := false
    test_compilation := false
    runcase := false
    casestate := false
    compare := false
    post := false
    sheet := false
    create_xml := false
    addresses := []
    slurm_batch_size := 0 }

/-- Environment facts `run_studymanager` observes: the platform test
`sys.platform.startswith("win")`, the two `os.path.isfile` tests on the solver
executable and the io-dump tool, the terminal case outcomes that the run phase
(`studies.run` or `studies.run_slurm_batches`) produces, and the file list that
`studies.build_reports` returns. -/
structure Env where
  isWin : Bool
  exeFound : Bool
  difFound : Bool
  caseOutcomes : List (String × Status)
  reportFiles : List String
deriving DecidableEq

/-- Replace the case outcomes of an environment, keeping every other field. -/
def setCaseOutcomes (e : Env) (oc : List (String × Status)) : Env :=
  { isWin := e.isWin
    exeFound := e.exeFound
    difFound := e.difFound
    caseOutcomes := oc
    reportFiles := e.reportFiles }

/-- The externally visible calls `run_studymanager` makes on the `studies`
object. The post-processing block (`check_script`, `scripts`,
`check_plots_and_input`, `postpro`, `plot`) is abstracted as the single action
`postProcess`; pure logging (`studies.reporting`) is not recorded. -/
inductive Action where
  | updateSetup
  | testCompilation
  | dumpGraph
  | checkCompareRepo
  | checkScriptRepo
  | checkPlotsRepo
  | createStudies (runcase : Bool)
  | runLocal
  | runSlurmBatches
  | reportState
  | checkCompareDest
  | compareResults
  | postProcess
  | buildReports
  | buildDescriptionReport
  | sendReport (files : List String)
deriving DecidableEq

/-- The sequence of `studies` calls performed by the main body of
`run_studymanager` (lines 354-434), in source order, as functions of the
option flags: `updateSetup`, `test_compilation`, the dependency-graph dump
guarded by the five-way disjunction of line 367, the repository checks of the
compare and post branches, `create_studies`, the run dispatch of lines
394-398 (`studies.run()` when `slurm_batch_size < 1`, otherwise
`studies.run_slurm_batches()`), `report_state`, the comparison, the
post-processing block, `build_reports`, and `build_description_report`. -/
def studies_calls (o : Opts) : List Action :=
  (if o.update_setup = true then [Action.updateSetup] else []) ++
  (if o.test_compilation = true then [Action.testCompilation] else []) ++
  (if o.compare = true ∨ o.post = true ∨ o.runcase = true ∨ o.sheet = true
      ∨ o.casestate = true then [Action.dumpGraph] else []) ++
  (if o.compare = true then [Action.checkCompareRepo] else []) ++
  (if o.post = true then [Action.checkScriptRepo, Action.checkPlotsRepo] else []) ++
  (if o.runcase = true ∨ o.post = true ∨ o.sheet = true then
    [Action.createStudies o.runcase] else []) ++
  (if o.runcase = true then
    (if o.slurm_batch_size < 1 then [Action.runLocal] else [Action.runSlurmBatches])
   else []) ++
  (if o.casestate = true then [Action.reportState] else []) ++
  (if o.compare = true then [Action.checkCompareDest, Action.compareResults] else []) ++
  (if o.post = true then [Action.postProcess] else []) ++
  (if o.post = true then [Action.buildReports] else []) ++
  (if o.sheet = true then [Action.buildDescriptionReport] else [])

/-- Embedding of `run_studymanager` (cs_studymanager.py lines 277-442).
Returns the sequence of `studies` calls performed together with the outcome:
`Except.ok r` when the function returns `r`, `Except.error` when an uncaught
exception escapes.  The early returns: a missing executable or io-dump file on
a non-Windows platform returns 1; `options.create_xml` returns 0 right after
the `Studies` constructor.  The local variable `attached_file` is assigned
(to the value of `studies.build_reports`) only inside the `options.post`
block; evaluating it in the final `send_report` call while it was never
assigned raises `NameError`, so the mail step is reached with an attachment
list exactly when `options.post` was set.  The case outcomes of the run phase
are never consulted afterwards, and the final statement returns 0
unconditionally. -/
def run_studymanager (o : Opts) (e : Env) : List Action × Except PyErr Int :=
  if e.exeFound = false ∧ e.isWin = false then ([], Except.ok 1)
  else if e.difFound = false ∧ e.isWin = false then ([], Except.ok 1)
  else if o.create_xml = true then ([], Except.ok 0)
  else if 0 < o.addresses.length then
    (if o.post = true then
      (studies_calls o ++ [Action.sendReport e.reportFiles], Except.ok 0)
     else
      (studies_calls o, Except.error (PyErr.nameError "attached_file")))
  else
    (studies_calls o, Except.ok 0)

/-- Embedding of `main` (lines 448-456): the process exits through
`sys.exit(retcode)` with the value `run_studymanager` returns, or abnormally
when an exception escapes it. -/
def main_exit (o : Opts) (e : Env) : Except PyErr Int :=
  (run_studymanager o e).2

/-- The module-level names bound by the import statements of
cs_studymanager.py (lines 30-44) that matter to `send_mail`: the `email`
package member is imported as the lowercase `encoders`; no binding named
`Encoders` exists. -/
def module_bound_names : List String :=
  ["os", "sys", "string", "getpass", "platform", "OptionParser", "datetime",
   "date", "smtplib", "COMMASPACE", "formatdate", "encoders", "MIMEMultipart",
   "MIMEBase", "MIMEText"]

/-- A message as handed to `smtp.sendmail`: sender, recipients, subject, body
and the attached files. -/
structure Mail where
  send_from : String
  send_to : List String
  subject : String
  text : String
  attachments : List String
deriving DecidableEq

/-- Embedding of `send_mail` (lines 233-257).  With an empty `files` list the
attachment loop does not run and the message is sent.  With a non-empty list,
the first loop iteration evaluates the identifier `Encoders`, which is not
among the module bindings, so a `NameError` is raised before `smtp.sendmail`
is reached. -/
def send_mail (send_from : String) (send_to : List String)
    (subject text : String) (files : List String) : Except PyErr Mail :=
  match files with
  | [] => Except.ok ⟨send_from, send_to, subject, text, []⟩
  | _ :: _ =>
      if "Encoders" ∈ module_bound_names then
        Except.ok ⟨send_from, send_to, subject, text, files⟩
      else
        Except.error (PyErr.nameError "Encoders")

/-- The `FROM` address chosen by `send_report` (lines 210-213). -/
def report_from (code_name : String) : String :=
  if code_name = "Code_Saturne" then "saturne-support@edf.fr"
  else "neptune-cfd-support@edf.fr"

/-- The `SUBJECT` string built by `send_report` (line 217); `today` stands for
`date.today()`. -/
def report_subject (code_name today labels : String) : String :=
  code_name ++ ". Study Manager " ++ today ++ ": " ++ labels ++ " "

/-- The `MESSAGE` body built by `send_report` (line 221). -/
def report_message (code_name today labels report : String)
    (send_to : List String) : String :=
  "From: " ++ report_from code_name ++ "\nTo: " ++ String.intercalate ", " send_to
    ++ "\nSubject: " ++ report_subject code_name today labels ++ "\n\n" ++ report

/-- Embedding of `send_report` (lines 198-227): try to send the full report
with its attachments; on any exception, send instead a fallback message whose
subject is prefixed with `[ERROR]`, whose body is the string `RETOUR`
assigned to `retour` (a bare newline), and which carries no attachment.
Returns the message actually delivered. -/
def send_report (code_name report labels today : String)
    (send_to : List String) (files : List String) : Except PyErr Mail :=
  match send_mail (report_from code_name) send_to
      (report_subject code_name today labels)
      (report_message code_name today labels report send_to) files with
  | Except.ok m => Except.ok m
  | Except.error _ =>
      send_mail (report_from code_name) send_to
        ("[ERROR] " ++ report_subject code_name today labels) "\n" []

/-- A case as the Filter sees it: its tag set, its dependency level and its
requested processor count (spec section 3). -/
structure FilterCase where
  tags : List String
  level : Int
  n_procs : Int
deriving DecidableEq

/-- The filter configuration: tag-include set, tag-exclude set, optional
level bound, optional processor-count bound, matching the options
`--with-tags`, `--without-tags`, `--filter-level` and `--filter-n-procs`
declared in `process_cmd_line` (lines 155-171). -/
structure FilterCfg where
  tags_include : List String
  tags_exclude : List String
  level_bound : Option Int
  n_procs_bound : Option Int
deriving DecidableEq

/-- Modelled from the spec: the Filter selection predicate of section 4.2;
the implementing module `code_saturne.studymanager.cs_studymanager_study` is
not among the sources, only its option declarations are.  A case is selected
iff (tags_include empty OR intersects case.tags) AND case.tags disjoint from
tags_exclude AND (no level bound OR level matches) AND (no proc bound OR
n_procs matches). -/
def filter_selects (cfg : FilterCfg) (c : FilterCase) : Bool :=
  (cfg.tags_include.isEmpty || cfg.tags_include.any (fun t => decide (t ∈ c.tags))) &&
  (cfg.tags_exclude.all (fun t => decide (t ∉ c.tags))) &&
  (match cfg.level_bound with
   | none => true
   | some l => decide (c.level = l)) &&
  (match cfg.n_procs_bound with
   | none => true
   | some n => decide (c.n_procs = n))

/-- A case as the dependency graph sees it: unique id, owning study, level,
and the ids of its explicit prerequisites (spec section 3). -/
structure GCase where
  id : String
  study : String
  level : Int
  depends : List String
deriving DecidableEq

/-- Modelled from the spec: DependencyGraph edge construction of section 4.1
(the implementing module is not among the sources).  An edge `(p, c)` means
`c` depends on `p`.  Edges come from the explicit declared prerequisites and
from the implicit level policy: within a study, every case at level `L`
depends on every case at a level strictly below `L`. -/
def build_edges (cases : List GCase) : List (String × String) :=
  (cases.map (fun c => c.depends.map (fun p => (p, c.id)))).flatten ++
  (cases.map (fun c =>
      (cases.filter (fun d => decide (d.study = c.study) && decide (d.level < c.level))).map
        (fun d => (d.id, c.id)))).flatten

/-- Whether case `c` still has, among the not-yet-removed cases `remaining`,
a prerequisite edge pointing at it. -/
def has_pending_prereq (edges : List (String × String)) (remaining : List String)
    (c : String) : Bool :=
  edges.any (fun e => decide (e.2 = c) && decide (e.1 ∈ remaining))

/-- One round of source elimination: keep exactly the cases that still have a
pending prerequisite among the remaining ones. -/
def kahn_step (edges : List (String × String)) (remaining : List String) :
    List String :=
  remaining.filter (fun c => has_pending_prereq edges remaining c)

/-- Iterated source elimination. -/
def kahn_iter (edges : List (String × String)) : Nat → List String → List String
  | 0, remaining => remaining
  | n + 1, remaining => kahn_iter edges n (kahn_step edges remaining)

/-- The error carried when a dependency cycle is detected: the ids of the
cases that could never be scheduled. -/
structure CycleError where
  ids : List String
deriving DecidableEq

/-- Modelled from the spec: cycle detection during dependency-graph
construction (section 4.1).  Repeatedly eliminate cases all of whose
prerequisites are already eliminated; the cases left over after as many
rounds as there are cases are exactly the ones stuck behind a cycle, and a
CycleError listing them is raised when any are left. -/
def topological_check (cases : List GCase) : Except CycleError Unit :=
  let leftover :=
    kahn_iter (build_edges cases) cases.length (cases.map (fun c => c.id))
  if leftover.isEmpty then Except.ok () else Except.error ⟨leftover⟩

/-- Modelled from the spec: the orchestration pipeline order of section 2 —
graph construction and its cycle check run before any execution, a
CycleError propagates and no case is ever started.  On success the returned
list holds the ids whose execution begins. -/
def run_pipeline (cases : List GCase) : Except CycleError (List String) :=
  match topological_check cases with
  | Except.error err => Except.error err
  | Except.ok _ => Except.ok (cases.map (fun c => c.id))

/-- `cycle_closed edges l` holds when the nonempty list `l` traces a
dependency cycle: each element is followed (cyclically) by an element that
depends on it through `edges`. -/
def cycle_closed (edges : List (String × String)) (l : List String) : Bool :=
  decide (l ≠ []) && (l.zip (l.rotate 1)).all (fun e => decide (e ∈ edges))

/-- A (nonempty) dependency path through the graph: `DepPath edges a c`
means `c` transitively depends on `a` through at least one edge. -/
inductive DepPath (edges : List (String × String)) : String → String → Prop
  | single {p c : String} : (p, c) ∈ edges → DepPath edges p c
  | snoc {a p c : String} : DepPath edges a p → (p, c) ∈ edges → DepPath edges a c

/-- A case is blocked when some case whose own execution fails
(`intrinsic b = false`) has a dependency path to it. -/
def Blocked (edges : List (String × String)) (intrinsic : String → Bool)
    (c : String) : Prop :=
  ∃ b, intrinsic b = false ∧ DepPath edges b c

/-- The prerequisite ids of case `c`: sources of the edges that point at
`c`. -/
def prereqs_of (edges : List (String × String)) (c : String) : List String :=
  (edges.filter (fun e => decide (e.2 = c))).map (fun e => e.1)

/-- Whether a prerequisite with the given recorded status blocks its
dependents: a FAILED or SKIPPED prerequisite does, a COMPLETED one does not,
and an absent record (a prerequisite outside the run, relaxed by the Filter
policy) does not. -/
def status_blocks : Option Status → Bool
  | some Status.failed => true
  | some Status.skipped => true
  | _ => false

/-- Modelled from the spec: the per-case lifecycle with failure propagation
(section 4.4; the implementing module is not among the sources).  Cases are
processed in dependency order; a case one of whose prerequisites ended
FAILED or SKIPPED is recorded SKIPPED without running, otherwise it runs and
is recorded COMPLETED or FAILED according to `intrinsic` (whether its own
execution would succeed). -/
def run_cases (edges : List (String × String)) (intrinsic : String → Bool) :
    List String → (String → Option Status) → (String → Option Status)
  | [], m => m
  | c :: rest, m =>
      let st : Status :=
        if (prereqs_of edges c).any (fun p => status_blocks (m p)) then Status.skipped
        else if intrinsic c then Status.completed
        else Status.failed
      run_cases edges intrinsic rest (fun x => if x = c then some st else m x)

/-- The status recorded for case `c` after running all cases of `ord` in
order over an initially empty status table. -/
def final_status (edges : List (String × String)) (ord : List String)
    (intrinsic : String → Bool) (c : String) : Option Status :=
  run_cases edges intrinsic ord (fun _ => none) c

/-- A case as the BatchPlanner sees it: id and estimated wall time. -/
structure PCase where
  id : String
  wtime : Nat
deriving DecidableEq

/-- Modelled from the spec: the greedy bin-fill walk of section 4.3 over the
remaining cases, carrying the current batch `cur` and its cumulative
estimated wall time `wt`.  The next case joins the current batch unless that
would exceed the case-count cap or the wall-time budget, in which case the
current batch is closed and a new one starts with that case. -/
def plan_aux (cap budget : Nat) :
    List PCase → List PCase → Nat → List (List PCase)
  | [], cur, _ => [cur]
  | c :: rest, cur, wt =>
      if cur.length + 1 ≤ cap ∧ wt + c.wtime ≤ budget then
        plan_aux cap budget rest (cur ++ [c]) (wt + c.wtime)
      else
        cur :: plan_aux cap budget rest [c] c.wtime

/-- Modelled from the spec: BatchPlanner (section 4.3; the implementing
module is not among the sources).  Packs the ordered, filtered case list
into batches by the greedy bin-fill walk, the first case opening the first
batch. -/
def plan_batches (cap budget : Nat) : List PCase → List (List PCase)
  | [] => []
  | c :: rest => plan_aux cap budget rest [c] c.wtime

/-- The cumulative estimated wall time of a batch. -/
def sum_wtime (l : List PCase) : Nat :=
  (l.map (fun c => c.wtime)).sum

/-- The (batch index, position within batch) coordinates of the cases of a
batch plan, listed in overall submission order. -/
def batch_coords {α : Type} : List (List α) → List (Nat × Nat)
  | [] => []
  | b :: bs =>
      (List.range b.length).map (fun p => (0, p)) ++
      (batch_coords bs).map (fun q => (q.1 + 1, q.2))

/-- Look a case up in a batch plan by its (batch index, position)
coordinates. -/
def coord_get {α : Type} (plan : List (List α)) (q : Nat × Nat) : Option α :=
  match plan[q.1]? with
  | none => none
  | some b => b[q.2]?

/-- A terminal case record as archived by the ResultAggregator: case id,
owning study, tags and terminal status (spec section 4.6). -/
structure CaseRecord where
  caseId : String
  study : String
  tags : List String
  status : Status
deriving DecidableEq

/-- Modelled from the spec: ResultAggregator archiving (section 4.6; the
implementing module is not among the sources).  A terminal record is added
to the archive unless a record for the same case id is already present, so
re-presenting a record never double counts. -/
def archive (s : List CaseRecord) (r : CaseRecord) : List CaseRecord :=
  if s.any (fun x => decide (x.caseId = r.caseId)) then s else r :: s

/-- Feed a list of terminal records into the aggregator archive, in order. -/
def ingest (s : List CaseRecord) (rs : List CaseRecord) : List CaseRecord :=
  rs.foldl archive s

/-- Count of archived records with the given status. -/
def count_status (s : List CaseRecord) (st : Status) : Nat :=
  (s.filter (fun r => decide (r.status = st))).length

/-- Count of archived records with the given status inside one study. -/
def count_study (s : List CaseRecord) (st : Status) (study : String) : Nat :=
  (s.filter (fun r => decide (r.status = st) && decide (r.study = study))).length

/-- Count of archived records with the given status carrying one tag. -/
def count_tag (s : List CaseRecord) (st : Status) (tag : String) : Nat :=
  (s.filter (fun r => decide (r.status = st) && decide (tag ∈ r.tags))).length

/-! ## General list helpers -/

theorem mem_ite_iff {α : Type} {c : Prop} [Decidable c] {a : α} {l1 l2 : List α} :
    (a ∈ if c then l1 else l2) ↔ (c ∧ a ∈ l1) ∨ (¬ c ∧ a ∈ l2) := by
  split <;> simp [*]

/-! ## Claim C2: the Filter selection predicate -/

/-- C2: a case passes the Filter iff (tag-include set empty OR it shares a
tag with the case) AND the exclude set is disjoint from the case tags AND
(no level bound OR the level matches) AND (no processor bound OR n_procs
matches). -/
theorem c2_filter_selection (cfg : FilterCfg) (c : FilterCase) :
    filter_selects cfg c = true ↔
      ((cfg.tags_include = [] ∨ ∃ t ∈ cfg.tags_include, t ∈ c.tags) ∧
       (∀ t ∈ cfg.tags_exclude, t ∉ c.tags) ∧
       (∀ l, cfg.level_bound = some l → c.level = l) ∧
       (∀ n, cfg.n_procs_bound = some n → c.n_procs = n)) := by
  rcases cfg with ⟨ti, te, lb, nb⟩
  unfold filter_selects
  cases lb <;> cases nb <;>
    simp [List.isEmpty_iff, List.any_eq_true, List.all_eq_true, and_assoc]

/-! ## Claim C10: send_mail attachments and the send_report fallback -/

/-- C10: with a non-empty attachment list, `send_mail` stops on the unbound
name `Encoders` with a `NameError` before anything is sent, so `send_report`
always takes its exception branch and delivers only the fallback message:
`[ERROR]`-prefixed subject, bare-newline body, no attachments. -/
theorem c10_send_mail_attachment_name_error
    (code_name report labels today : String)
    (send_to files : List String) (hf : files ≠ []) :
    send_mail (report_from code_name) send_to
        (report_subject code_name today labels)
        (report_message code_name today labels report send_to) files
      = Except.error (PyErr.nameError "Encoders") ∧
    send_report code_name report labels today send_to files
      = Except.ok ⟨report_from code_name, send_to,
          "[ERROR] " ++ report_subject code_name today labels, "\n", []⟩ := by
  obtain ⟨f, fs, rfl⟩ := List.exists_cons_of_ne_nil hf
  have hm : send_mail (report_from code_name) send_to
      (report_subject code_name today labels)
      (report_message code_name today labels report send_to) (f :: fs)
      = Except.error (PyErr.nameError "Encoders") := by
    unfold send_mail
    rw [if_neg]
    intro h
    simp [module_bound_names] at h
  refine ⟨hm, ?_⟩
  unfold send_report
  rw [hm]
  rfl

/-- Witness for C10 at a concrete call. -/
theorem c10_witness :
    send_report "Code_Saturne" "all good" "vnv-summary" "2026-10-12"
        ["dev@example.org"] ["report.pdf"]
      = Except.ok ⟨"saturne-support@edf.fr", ["dev@example.org"],
          "[ERROR] " ++ report_subject "Code_Saturne" "2026-10-12" "vnv-summary",
          "\n", []⟩ :=
  (c10_send_mail_attachment_name_error "Code_Saturne" "all good" "vnv-summary"
    "2026-10-12" ["dev@example.org"] ["report.pdf"] (by decide)).2

/-! ## Claim C9: mail requested without post-processing -/

/-- C9: when at least one mail address is given but post-processing is not
requested (and the run gets past the executable checks and `create_xml`),
`run_studymanager` reaches the `send_report` call with `attached_file` never
assigned: the call raises `NameError` instead of sending any report, and no
`sendReport` action is performed. -/
theorem c9_mail_without_post_raises (o : Opts) (e : Env)
    (haddr : o.addresses ≠ []) (hpost : o.post = false)
    (hxml : o.create_xml = false)
    (hexe : e.isWin = true ∨ (e.exeFound = true ∧ e.difFound = true)) :
    (run_studymanager o e).2 = Except.error (PyErr.nameError "attached_file") ∧
    ∀ fs, Action.sendReport fs ∉ (run_studymanager o e).1 := by
  have h1 : ¬ (e.exeFound = false ∧ e.isWin = false) := by
    rintro ⟨hc1, hc2⟩
    rcases hexe with h | ⟨ha, _⟩
    · rw [h] at hc2; cases hc2
    · rw [ha] at hc1; cases hc1
  have h2 : ¬ (e.difFound = false ∧ e.isWin = false) := by
    rintro ⟨hc1, hc2⟩
    rcases hexe with h | ⟨_, hb⟩
    · rw [h] at hc2; cases hc2
    · rw [hb] at hc1; cases hc1
  have h3 : ¬ (o.create_xml = true) := by rw [hxml]; simp
  have h4 : 0 < o.addresses.length := List.length_pos.mpr haddr
  have h5 : ¬ (o.post = true) := by rw [hpost]; simp
  unfold run_studymanager
  rw [if_neg h1, if_neg h2, if_neg h3, if_pos h4, if_neg h5]
  refine ⟨rfl, ?_⟩
  intro fs
  simp [studies_calls, mem_ite_iff]

/-- Witness for C9 at a concrete option set and environment. -/
theorem c9_witness :
    (run_studymanager
        ⟨false, false, false, false, false, false, false, false, ["user@example.org"], 0⟩
        ⟨false, true, true, [], []⟩).2
      = Except.error (PyErr.nameError "attached_file") ∧
    ∀ fs, Action.sendReport fs ∉
      (run_studymanager
        ⟨false, false, false, false, false, false, false, false, ["user@example.org"], 0⟩
        ⟨false, true, true, [], []⟩).1 :=
  c9_mail_without_post_raises _ _ (by decide) rfl rfl (Or.inr ⟨rfl, rfl⟩)

/-! ## Claim C8: the run-mode dispatch -/

theorem runLocal_mem_studies_calls (o : Opts) :
    Action.runLocal ∈ studies_calls o ↔
      o.runcase = true ∧ o.slurm_batch_size < 1 := by
  simp [studies_calls, mem_ite_iff]

theorem runSlurm_mem_studies_calls (o : Opts) :
    Action.runSlurmBatches ∈ studies_calls o ↔
      o.runcase = true ∧ ¬ o.slurm_batch_size < 1 := by
  simp [studies_calls, mem_ite_iff]

theorem run_mode_iff_local (o : Opts) (e : Env) :
    Action.runLocal ∈ (run_studymanager o e).1 ↔
      ((e.isWin = true ∨ (e.exeFound = true ∧ e.difFound = true)) ∧
        o.create_xml = false ∧ o.runcase = true ∧ o.slurm_batch_size < 1) := by
  by_cases h1 : e.exeFound = false ∧ e.isWin = false
  · unfold run_studymanager
    rw [if_pos h1]
    obtain ⟨ha, hb⟩ := h1
    simp [ha, hb]
  · by_cases h2 : e.difFound = false ∧ e.isWin = false
    · unfold run_studymanager
      rw [if_neg h1, if_pos h2]
      obtain ⟨ha, hb⟩ := h2
      simp [ha, hb]
    · by_cases h3 : o.create_xml = true
      · unfold run_studymanager
        rw [if_neg h1, if_neg h2, if_pos h3]
        simp [h3]
      · have hreach : e.isWin = true ∨ (e.exeFound = true ∧ e.difFound = true) := by
          cases hw : e.isWin
          · refine Or.inr ⟨?_, ?_⟩
            · cases hx : e.exeFound
              · exact absurd ⟨hx, hw⟩ h1
              · rfl
            · cases hd : e.difFound
              · exact absurd ⟨hd, hw⟩ h2
              · rfl
          · exact Or.inl rfl
        have hxml : o.create_xml = false := by
          cases hx : o.create_xml
          · rfl
          · exact absurd hx h3
        unfold run_studymanager
        rw [if_neg h1, if_neg h2, if_neg h3]
        by_cases h4 : 0 < o.addresses.length
        · rw [if_pos h4]
          by_cases h5 : o.post = true
          · rw [if_pos h5]
            simp only [runLocal_mem_studies_calls, List.mem_append,
              List.mem_singleton, hxml]
            constructor
            · rintro (h | h)
              · exact ⟨hreach, trivial, h.1, h.2⟩
              · cases h
            · rintro ⟨_, _, hr, hs⟩
              exact Or.inl ⟨hr, hs⟩
          · rw [if_neg h5]
            simp only [runLocal_mem_studies_calls, hxml]
            constructor
            · rintro ⟨hr, hs⟩
              exact ⟨hreach, trivial, hr, hs⟩
            · rintro ⟨_, _, hr, hs⟩
              exact ⟨hr, hs⟩
        · rw [if_neg h4]
          simp only [runLocal_mem_studies_calls, hxml]
          constructor
          · rintro ⟨hr, hs⟩
            exact ⟨hreach, trivial, hr, hs⟩
          · rintro ⟨_, _, hr, hs⟩
            exact ⟨hr, hs⟩

theorem run_mode_iff_slurm (o : Opts) (e : Env) :
    Action.runSlurmBatches ∈ (run_studymanager o e).1 ↔
      ((e.isWin = true ∨ (e.exeFound = true ∧ e.difFound = true)) ∧
        o.create_xml = false ∧ o.runcase = true ∧ 1 ≤ o.slurm_batch_size) := by
  have hint : ∀ z : Int, ¬ z < 1 ↔ 1 ≤ z := fun z => Int.not_lt
  by_cases h1 : e.exeFound = false ∧ e.isWin = false
  · unfold run_studymanager
    rw [if_pos h1]
    obtain ⟨ha, hb⟩ := h1
    simp [ha, hb]
  · by_cases h2 : e.difFound = false ∧ e.isWin = false
    · unfold run_studymanager
      rw [if_neg h1, if_pos h2]
      obtain ⟨ha, hb⟩ := h2
      simp [ha, hb]
    · by_cases h3 : o.create_xml = true
      · unfold run_studymanager
        rw [if_neg h1, if_neg h2, if_pos h3]
        simp [h3]
      · have hreach : e.isWin = true ∨ (e.exeFound = true ∧ e.difFound = true) := by
          cases hw : e.isWin
          · refine Or.inr ⟨?_, ?_⟩
            · cases hx : e.exeFound
              · exact absurd ⟨hx, hw⟩ h1
              · rfl
            · cases hd : e.difFound
              · exact absurd ⟨hd, hw⟩ h2
              · rfl
          · exact Or.inl rfl
        have hxml : o.create_xml = false := by
          cases hx : o.create_xml
          · rfl
          · exact absurd hx h3
        unfold run_studymanager
        rw [if_neg h1, if_neg h2, if_neg h3]
        by_cases h4 : 0 < o.addresses.length
        · rw [if_pos h4]
          by_cases h5 : o.post = true
          · rw [if_pos h5]
            simp only [runSlurm_mem_studies_calls, List.mem_append,
              List.mem_singleton, hxml, hint]
            constructor
            · rintro (h | h)
              · exact ⟨hreach, trivial, h.1, h.2⟩
              · cases h
            · rintro ⟨_, _, hr, hs⟩
              exact Or.inl ⟨hr, hs⟩
          · rw [if_neg h5]
            simp only [runSlurm_mem_studies_calls, hxml, hint]
            constructor
            · rintro ⟨hr, hs⟩
              exact ⟨hreach, trivial, hr, hs⟩
            · rintro ⟨_, _, hr, hs⟩
              exact ⟨hr, hs⟩
        · rw [if_neg h4]
          simp only [runSlurm_mem_studies_calls, hxml, hint]
          constructor
          · rintro ⟨hr, hs⟩
            exact ⟨hreach, trivial, hr, hs⟩
          · rintro ⟨_, _, hr, hs⟩
            exact ⟨hr, hs⟩

/-- C8: with runcase requested (and the pipeline reached), exactly one
execution mode runs: `studies.run_slurm_batches()` when the configured
`slurm_batch_size` is at least 1, `studies.run()` otherwise; the default
batch size is 0, so plain local execution is the default; the two modes are
never both invoked. -/
theorem c8_run_mode_dispatch (o : Opts) (e : Env) :
    (Action.runLocal ∈ (run_studymanager o e).1 ↔
      ((e.isWin = true ∨ (e.exeFound = true ∧ e.difFound = true)) ∧
        o.create_xml = false ∧ o.runcase = true ∧ o.slurm_batch_size < 1)) ∧
    (Action.runSlurmBatches ∈ (run_studymanager o e).1 ↔
      ((e.isWin = true ∨ (e.exeFound = true ∧ e.difFound = true)) ∧
        o.create_xml = false ∧ o.runcase = true ∧ 1 ≤ o.slurm_batch_size)) ∧
    ¬ (Action.runLocal ∈ (run_studymanager o e).1 ∧
       Action.runSlurmBatches ∈ (run_studymanager o e).1) ∧
    default_options.slurm_batch_size = 0 := by
  refine ⟨run_mode_iff_local o e, run_mode_iff_slurm o e, ?_, rfl⟩
  rintro ⟨hA, hB⟩
  obtain ⟨-, -, -, hlt⟩ := (run_mode_iff_local o e).mp hA
  obtain ⟨-, -, -, hge⟩ := (run_mode_iff_slurm o e).mp hB
  omega

/-! ## Claim C1: the process exit code -/

/-- C1 counterexample: a run with runcase requested in which a required case
ends FAILED still finishes with exit code 0 — the exit code does not reflect
case outcomes. -/
theorem c1_counterexample :
    main_exit ⟨false, false, true, false, false, false, false, false, [], 0⟩
        ⟨false, true, true, [("STUDY/CASE1", Status.failed)], []⟩
      = Except.ok 0 ∧
    (⟨false, false, true, false, false, false, false, false, [], 0⟩ : Opts).runcase
      = true ∧
    ("STUDY/CASE1", Status.failed) ∈
      (⟨false, true, true, [("STUDY/CASE1", Status.failed)], []⟩
        : Env).caseOutcomes := by
  refine ⟨rfl, rfl, ?_⟩
  exact List.mem_singleton.mpr rfl

/-- C1 amended: the exit code never depends on the case outcomes.  The
process exit value of `run_studymanager` is 1 exactly when the solver
executable or the io-dump tool is missing on a non-Windows platform, the
`NameError` escape happens exactly when mail is requested without
post-processing past those checks, and every other run returns 0 — whatever
the case outcomes were. -/
theorem c1_exit_code_amended (o : Opts) (e : Env)
    (oc1 oc2 : List (String × Status)) :
    (run_studymanager o (setCaseOutcomes e oc1)).2
        = (run_studymanager o (setCaseOutcomes e oc2)).2 ∧
    ((run_studymanager o e).2 = Except.ok 1 ↔
      e.isWin = false ∧ (e.exeFound = false ∨ e.difFound = false)) ∧
    ((run_studymanager o e).2 = Except.error (PyErr.nameError "attached_file") ↔
      ((e.isWin = true ∨ (e.exeFound = true ∧ e.difFound = true)) ∧
        o.create_xml = false ∧ o.addresses ≠ [] ∧ o.post = false)) ∧
    ((run_studymanager o e).2 = Except.ok 0 ∨
     (run_studymanager o e).2 = Except.ok 1 ∨
     (run_studymanager o e).2 = Except.error (PyErr.nameError "attached_file")) := by
  refine ⟨rfl, ?_⟩
  by_cases h1 : e.exeFound = false ∧ e.isWin = false
  · unfold run_studymanager
    rw [if_pos h1]
    obtain ⟨ha, hb⟩ := h1
    simp [ha, hb]
  · by_cases h2 : e.difFound = false ∧ e.isWin = false
    · unfold run_studymanager
      rw [if_neg h1, if_pos h2]
      obtain ⟨ha, hb⟩ := h2
      simp [ha, hb]
    · have hnot1 : ¬ (e.isWin = false ∧ (e.exeFound = false ∨ e.difFound = false)) := by
        rintro ⟨hw, hx | hd⟩
        · exact h1 ⟨hx, hw⟩
        · exact h2 ⟨hd, hw⟩
      have hreach : e.isWin = true ∨ (e.exeFound = true ∧ e.difFound = true) := by
        cases hw : e.isWin
        · refine Or.inr ⟨?_, ?_⟩
          · cases hx : e.exeFound
            · exact absurd ⟨hx, hw⟩ h1
            · rfl
          · cases hd : e.difFound
            · exact absurd ⟨hd, hw⟩ h2
            · rfl
        · exact Or.inl rfl
      by_cases h3 : o.create_xml = true
      · unfold run_studymanager
        rw [if_neg h1, if_neg h2, if_pos h3]
        simp [h3, hnot1]
      · have hxml : o.create_xml = false := by
          cases hx : o.create_xml
          · rfl
          · exact absurd hx h3
        unfold run_studymanager
        rw [if_neg h1, if_neg h2, if_neg h3]
        by_cases h4 : 0 < o.addresses.length
        · rw [if_pos h4]
          by_cases h5 : o.post = true
          · rw [if_pos h5]
            simp [h5, hnot1]
          · have hpost : o.post = false := by
              cases hx : o.post
              · rfl
              · exact absurd hx h5
            rw [if_neg h5]
            simp [hpost, hnot1, hxml, hreach, List.length_pos.mp h4]
        · rw [if_neg h4]
          have hnil : o.addresses = [] := by
            cases hx : o.addresses with
            | nil => rfl
            | cons a l => exact absurd (by rw [hx]; simp) h4
          simp [hnot1, hnil]

/-! ## Claims C4 and C5: the BatchPlanner -/

theorem plan_aux_flatten (cap budget : Nat) :
    ∀ (rest cur : List PCase) (wt : Nat),
      (plan_aux cap budget rest cur wt).flatten = cur ++ rest := by
  intro rest
  induction rest with
  | nil => intro cur wt; simp [plan_aux]
  | cons c rest ih =>
      intro cur wt
      unfold plan_aux
      split
      · rw [ih]
        simp
      · rw [List.flatten_cons, ih]
        simp

theorem plan_batches_flatten (cap budget : Nat) (l : List PCase) :
    (plan_batches cap budget l).flatten = l := by
  cases l with
  | nil => rfl
  | cons c rest => exact plan_aux_flatten cap budget rest [c] c.wtime

theorem plan_aux_sized (cap budget : Nat) (hcap : 1 ≤ cap) :
    ∀ (rest cur : List PCase) (wt : Nat), cur ≠ [] → cur.length ≤ cap →
      ∀ b ∈ plan_aux cap budget rest cur wt, b ≠ [] ∧ b.length ≤ cap := by
  intro rest
  induction rest with
  | nil =>
      intro cur wt hne hle b hb
      rw [plan_aux] at hb
      rw [List.mem_singleton.mp hb]
      exact ⟨hne, hle⟩
  | cons c rest ih =>
      intro cur wt hne hle b hb
      rw [plan_aux] at hb
      split at hb
      · next hcond =>
          exact ih (cur ++ [c]) (wt + c.wtime) (by simp)
            (by simpa using hcond.1) b hb
      · rcases List.mem_cons.mp hb with hb | hb
        · rw [hb]; exact ⟨hne, hle⟩
        · exact ih [c] c.wtime (by simp) (by simpa using hcap) b hb

theorem batch_oversize_single (budget : Nat) (cur : List PCase)
    (hb : 2 ≤ cur.length → sum_wtime cur ≤ budget) :
    ∀ c ∈ cur, budget < c.wtime → cur = [c] := by
  intro c hc hover
  rcases cur with _ | ⟨x, _ | ⟨y, t⟩⟩
  · cases hc
  · rw [List.mem_singleton.mp hc]
  · exfalso
    have h2 : 2 ≤ (x :: y :: t).length := by
      rw [List.length_cons, List.length_cons]
      omega
    have hsum : sum_wtime (x :: y :: t) ≤ budget := hb h2
    have hmem : c.wtime ∈ (x :: y :: t).map (fun d => d.wtime) :=
      List.mem_map_of_mem _ hc
    have hle : c.wtime ≤ sum_wtime (x :: y :: t) :=
      List.single_le_sum (fun _ _ => Nat.zero_le _) _ hmem
    omega

theorem plan_aux_oversize (cap budget : Nat) :
    ∀ (rest cur : List PCase) (wt : Nat),
      wt = sum_wtime cur → (2 ≤ cur.length → wt ≤ budget) →
      ∀ b ∈ plan_aux cap budget rest cur wt,
        ∀ c ∈ b, budget < c.wtime → b = [c] := by
  intro rest
  induction rest with
  | nil =>
      intro cur wt hsum hbud b hb
      rw [plan_aux] at hb
      rw [List.mem_singleton.mp hb]
      exact batch_oversize_single budget cur (fun h2 => hsum ▸ hbud h2)
  | cons c rest ih =>
      intro cur wt hsum hbud b hb
      rw [plan_aux] at hb
      split at hb
      · next hcond =>
          refine ih (cur ++ [c]) (wt + c.wtime) ?_ (fun _ => hcond.2) b hb
          simp [sum_wtime, hsum]
      · rcases List.mem_cons.mp hb with hb | hb
        · rw [hb]
          exact batch_oversize_single budget cur (fun h2 => hsum ▸ hbud h2)
        · refine ih [c] c.wtime ?_ ?_ b hb
          · simp [sum_wtime]
          · intro h2; simp at h2

/-- C4: the BatchPlanner performs greedy bin-fill: every produced batch is
nonempty and within the case-count cap, a case whose own estimate exceeds
the wall-time budget sits alone in its batch, and with size cap 2 and five
independent unit-cost cases in input order the batches are exactly
[C1,C2], [C3,C4], [C5]. -/
theorem c4_batch_planner_greedy (cap budget : Nat) (l : List PCase)
    (hcap : 1 ≤ cap) :
    (∀ b ∈ plan_batches cap budget l, b ≠ [] ∧ b.length ≤ cap) ∧
    (∀ b ∈ plan_batches cap budget l, ∀ c ∈ b, budget < c.wtime → b = [c]) ∧
    plan_batches 2 3 [⟨"C1", 1⟩, ⟨"C2", 1⟩, ⟨"C3", 1⟩, ⟨"C4", 1⟩, ⟨"C5", 1⟩]
      = [[⟨"C1", 1⟩, ⟨"C2", 1⟩], [⟨"C3", 1⟩, ⟨"C4", 1⟩], [⟨"C5", 1⟩]] := by
  refine ⟨?_, ?_, by rfl⟩
  · cases l with
    | nil => intro b hb; cases hb
    | cons c rest =>
        exact plan_aux_sized cap budget hcap rest [c] c.wtime (by simp)
          (by simpa using hcap)
  · cases l with
    | nil => intro b hb; cases hb
    | cons c rest =>
        refine plan_aux_oversize cap budget rest [c] c.wtime ?_ ?_
        · simp [sum_wtime]
        · intro h2; simp at h2

/-- Witness for C4 at a concrete cap, budget and case list (one case larger
than the budget, one within it). -/
theorem c4_witness :
    (∀ b ∈ plan_batches 2 3 [⟨"BIG", 5⟩, ⟨"SMALL", 1⟩], b ≠ [] ∧ b.length ≤ 2) ∧
    (∀ b ∈ plan_batches 2 3 [⟨"BIG", 5⟩, ⟨"SMALL", 1⟩],
      ∀ c ∈ b, 3 < c.wtime → b = [c]) ∧
    plan_batches 2 3 [⟨"C1", 1⟩, ⟨"C2", 1⟩, ⟨"C3", 1⟩, ⟨"C4", 1⟩, ⟨"C5", 1⟩]
      = [[⟨"C1", 1⟩, ⟨"C2", 1⟩], [⟨"C3", 1⟩, ⟨"C4", 1⟩], [⟨"C5", 1⟩]] :=
  c4_batch_planner_greedy 2 3 [⟨"BIG", 5⟩, ⟨"SMALL", 1⟩] (by decide)

theorem batch_coords_length {α : Type} (plan : List (List α)) :
    (batch_coords plan).length = plan.flatten.length := by
  induction plan with
  | nil => rfl
  | cons b bs ih => simp [batch_coords, ih]

theorem coord_get_head {α : Type} (b : List α) (bs : List (List α)) (p : Nat) :
    coord_get (b :: bs) (0, p) = b[p]? := by
  unfold coord_get
  rw [List.getElem?_cons_zero]

theorem coord_get_cons {α : Type} (b : List α) (bs : List (List α))
    (q : Nat × Nat) : coord_get (b :: bs) (q.1 + 1, q.2) = coord_get bs q := by
  unfold coord_get
  rw [List.getElem?_cons_succ]

theorem batch_coords_get {α : Type} (plan : List (List α)) :
    ∀ (k : Nat) (q : Nat × Nat), (batch_coords plan)[k]? = some q →
      coord_get plan q = plan.flatten[k]? := by
  induction plan with
  | nil => intro k q h; cases h
  | cons b bs ih =>
      intro k q h
      rw [batch_coords] at h
      by_cases hk : k < b.length
      · rw [List.getElem?_append_left (by simpa using hk)] at h
        rw [List.getElem?_map] at h
        rw [List.getElem?_range hk] at h
        cases h
        rw [List.flatten_cons, List.getElem?_append_left hk]
        exact coord_get_head b bs k
      · have hk' : b.length ≤ k := Nat.le_of_not_lt hk
        rw [List.getElem?_append_right (by simpa using hk')] at h
        simp only [List.length_map, List.length_range] at h
        rw [List.getElem?_map] at h
        rcases hq' : (batch_coords bs)[k - b.length]? with _ | q'
        · rw [hq'] at h; cases h
        · rw [hq'] at h
          cases h
          rw [List.flatten_cons, List.getElem?_append_right hk']
          rw [← ih (k - b.length) q' hq']
          exact coord_get_cons b bs q'

theorem batch_coords_mono {α : Type} (plan : List (List α)) :
    ∀ (i j : Nat) (qi qj : Nat × Nat), i < j →
      (batch_coords plan)[i]? = some qi → (batch_coords plan)[j]? = some qj →
      (qi.1 < qj.1 ∨ (qi.1 = qj.1 ∧ qi.2 < qj.2)) := by
  induction plan with
  | nil => intro i j qi qj hij hi hj; cases hi
  | cons b bs ih =>
      intro i j qi qj hij hi hj
      rw [batch_coords] at hi hj
      by_cases hib : i < b.length
      · rw [List.getElem?_append_left (by simpa using hib)] at hi
        rw [List.getElem?_map, List.getElem?_range hib] at hi
        cases hi
        by_cases hjb : j < b.length
        · rw [List.getElem?_append_left (by simpa using hjb)] at hj
          rw [List.getElem?_map, List.getElem?_range hjb] at hj
          cases hj
          exact Or.inr ⟨rfl, hij⟩
        · have hjb' : b.length ≤ j := Nat.le_of_not_lt hjb
          rw [List.getElem?_append_right (by simpa using hjb')] at hj
          simp only [List.length_map, List.length_range] at hj
          rw [List.getElem?_map] at hj
          rcases hq' : (batch_coords bs)[j - b.length]? with _ | q'
          · rw [hq'] at hj; cases hj
          · rw [hq'] at hj
            cases hj
            exact Or.inl (Nat.succ_pos _)
      · have hib' : b.length ≤ i := Nat.le_of_not_lt hib
        have hjb' : b.length ≤ j := le_trans hib' (Nat.le_of_lt hij)
        rw [List.getElem?_append_right (by simpa using hib')] at hi
        rw [List.getElem?_append_right (by simpa using hjb')] at hj
        simp only [List.length_map, List.length_range] at hi hj
        rw [List.getElem?_map] at hi hj
        rcases hqi' : (batch_coords bs)[i - b.length]? with _ | qi'
        · rw [hqi'] at hi; cases hi
        · rcases hqj' : (batch_coords bs)[j - b.length]? with _ | qj'
          · rw [hqj'] at hj; cases hj
          · rw [hqi'] at hi
            rw [hqj'] at hj
            cases hi
            cases hj
            have hlt : i - b.length < j - b.length := by omega
            rcases ih (i - b.length) (j - b.length) qi' qj' hlt hqi' hqj' with
              h | ⟨h1, h2⟩
            · refine Or.inl ?_
              show qi'.1 + 1 < qj'.1 + 1
              omega
            · refine Or.inr ⟨?_, h2⟩
              show qi'.1 + 1 = qj'.1 + 1
              omega

/-- C5: the batch plan preserves the input (topological) order: flattening
the batches gives back the input list, and for input positions i < j (a
prerequisite precedes its dependent in topological order) the case at i
lands at strictly lexicographically smaller (batch index, position) than
the case at j — so the dependent's batch index is never smaller, and within
an equal batch the prerequisite comes first. -/
theorem c5_batches_respect_order (cap budget : Nat) (l : List PCase)
    (i j : Nat) (hij : i < j) (hj : j < l.length) :
    (plan_batches cap budget l).flatten = l ∧
    ∃ qi qj,
      (batch_coords (plan_batches cap budget l))[i]? = some qi ∧
      (batch_coords (plan_batches cap budget l))[j]? = some qj ∧
      coord_get (plan_batches cap budget l) qi = l[i]? ∧
      coord_get (plan_batches cap budget l) qj = l[j]? ∧
      (qi.1 < qj.1 ∨ (qi.1 = qj.1 ∧ qi.2 < qj.2)) := by
  have hfl : (plan_batches cap budget l).flatten = l :=
    plan_batches_flatten cap budget l
  have hlen : (batch_coords (plan_batches cap budget l)).length = l.length := by
    rw [batch_coords_length, hfl]
  have hi' : i < (batch_coords (plan_batches cap budget l)).length := by omega
  have hj' : j < (batch_coords (plan_batches cap budget l)).length := by omega
  refine ⟨hfl, (batch_coords (plan_batches cap budget l))[i],
    (batch_coords (plan_batches cap budget l))[j],
    List.getElem?_eq_getElem hi', List.getElem?_eq_getElem hj', ?_, ?_, ?_⟩
  · rw [batch_coords_get _ i _ (List.getElem?_eq_getElem hi'), hfl]
  · rw [batch_coords_get _ j _ (List.getElem?_eq_getElem hj'), hfl]
  · exact batch_coords_mono _ i j _ _ hij (List.getElem?_eq_getElem hi')
      (List.getElem?_eq_getElem hj')

/-- Witness for C5: cap 2, cases [C1, C2, C3] with C3 depending on C1
(hence C1 at position 0 and C3 at position 2 of the topological order). -/
theorem c5_witness :
    (plan_batches 2 3 [⟨"C1", 1⟩, ⟨"C2", 1⟩, ⟨"C3", 1⟩]).flatten
        = [⟨"C1", 1⟩, ⟨"C2", 1⟩, ⟨"C3", 1⟩] ∧
    ∃ qi qj,
      (batch_coords (plan_batches 2 3 [⟨"C1", 1⟩, ⟨"C2", 1⟩, ⟨"C3", 1⟩]))[0]?
          = some qi ∧
      (batch_coords (plan_batches 2 3 [⟨"C1", 1⟩, ⟨"C2", 1⟩, ⟨"C3", 1⟩]))[2]?
          = some qj ∧
      coord_get (plan_batches 2 3 [⟨"C1", 1⟩, ⟨"C2", 1⟩, ⟨"C3", 1⟩]) qi
          = [(⟨"C1", 1⟩ : PCase), ⟨"C2", 1⟩, ⟨"C3", 1⟩][0]? ∧
      coord_get (plan_batches 2 3 [⟨"C1", 1⟩, ⟨"C2", 1⟩, ⟨"C3", 1⟩]) qj
          = [(⟨"C1", 1⟩ : PCase), ⟨"C2", 1⟩, ⟨"C3", 1⟩][2]? ∧
      (qi.1 < qj.1 ∨ (qi.1 = qj.1 ∧ qi.2 < qj.2)) :=
  c5_batches_respect_order 2 3 [⟨"C1", 1⟩, ⟨"C2", 1⟩, ⟨"C3", 1⟩] 0 2
    (by decide) (by decide)

/-! ## Claim C3: cycle detection -/

theorem cycle_closed_pred (edges : List (String × String)) (l : List String)
    (h : cycle_closed edges l = true) :
    ∀ x ∈ l, ∃ p ∈ l, (p, x) ∈ edges := by
  unfold cycle_closed at h
  rw [Bool.and_eq_true] at h
  obtain ⟨hne, hall⟩ := h
  rw [List.all_eq_true] at hall
  intro x hx
  have hx' : x ∈ l.rotate 1 := List.mem_rotate.mpr hx
  obtain ⟨i, hi, hget⟩ := List.mem_iff_getElem.mp hx'
  have hlen : (l.rotate 1).length = l.length := List.length_rotate l 1
  have hil : i < l.length := by rw [← hlen]; exact hi
  have hzlen : i < (l.zip (l.rotate 1)).length := by
    rw [List.length_zip l (l.rotate 1), hlen]
    exact lt_min hil hil
  have hpair : (l.zip (l.rotate 1))[i] = (l[i], (l.rotate 1)[i]) :=
    List.getElem_zip
  have hmem : (l[i], x) ∈ l.zip (l.rotate 1) := by
    rw [← hget, ← hpair]
    exact List.getElem_mem hzlen
  have hdec := hall _ hmem
  rw [decide_eq_true_eq] at hdec
  exact ⟨l[i], List.getElem_mem hil, hdec⟩

theorem cycle_stays_in_kahn_iter (edges : List (String × String))
    (l : List String) (hpred : ∀ x ∈ l, ∃ p ∈ l, (p, x) ∈ edges) :
    ∀ (n : Nat) (remaining : List String), (∀ x ∈ l, x ∈ remaining) →
      ∀ x ∈ l, x ∈ kahn_iter edges n remaining := by
  intro n
  induction n with
  | zero => intro remaining h x hx; exact h x hx
  | succ n ih =>
      intro remaining h x hx
      rw [kahn_iter]
      refine ih (kahn_step edges remaining) ?_ x hx
      intro y hy
      unfold kahn_step
      rw [List.mem_filter]
      refine ⟨h y hy, ?_⟩
      unfold has_pending_prereq
      rw [List.any_eq_true]
      obtain ⟨p, hp, hedge⟩ := hpred y hy
      exact ⟨(p, y), hedge, by simp [h p hp]⟩

/-- C3: whenever the dependency graph built from explicit prerequisites and
level-derived edges contains a cycle, graph construction fails with a
CycleError whose id list contains every case id on the cycle, the error
propagates through the pipeline unswallowed, and no execution is started. -/
theorem c3_cycle_detected (cases : List GCase) (l : List String)
    (hcyc : cycle_closed (build_edges cases) l = true)
    (hsub : ∀ x ∈ l, x ∈ cases.map (fun c => c.id)) :
    ∃ err : CycleError,
      topological_check cases = Except.error err ∧
      (∀ x ∈ l, x ∈ err.ids) ∧
      run_pipeline cases = Except.error err := by
  have hpred := cycle_closed_pred _ _ hcyc
  have hstay := cycle_stays_in_kahn_iter _ _ hpred cases.length
    (cases.map (fun c => c.id)) hsub
  have hne : l ≠ [] := by
    unfold cycle_closed at hcyc
    rw [Bool.and_eq_true, decide_eq_true_eq] at hcyc
    exact hcyc.1
  obtain ⟨x0, hx0⟩ := List.exists_mem_of_ne_nil l hne
  have hleft : ¬ (kahn_iter (build_edges cases) cases.length
      (cases.map (fun c => c.id))).isEmpty = true := by
    rw [List.isEmpty_iff]
    intro hemp
    have hx := hstay x0 hx0
    rw [hemp] at hx
    cases hx
  refine ⟨⟨kahn_iter (build_edges cases) cases.length
    (cases.map (fun c => c.id))⟩, ?_, fun x hx => hstay x hx, ?_⟩
  · simp only [topological_check]
    rw [if_neg hleft]
  · simp only [run_pipeline, topological_check]
    rw [if_neg hleft]

/-- Witness for C3: the two-case mutual dependency A-on-B and B-on-A is
rejected with a CycleError naming both ids, and the pipeline never starts
executing. -/
theorem c3_witness :
    ∃ err : CycleError,
      topological_check [⟨"S/A", "S", 0, ["S/B"]⟩, ⟨"S/B", "S", 0, ["S/A"]⟩]
        = Except.error err ∧
      (∀ x ∈ ["S/A", "S/B"], x ∈ err.ids) ∧
      run_pipeline [⟨"S/A", "S", 0, ["S/B"]⟩, ⟨"S/B", "S", 0, ["S/A"]⟩]
        = Except.error err :=
  c3_cycle_detected [⟨"S/A", "S", 0, ["S/B"]⟩, ⟨"S/B", "S", 0, ["S/A"]⟩]
    ["S/A", "S/B"] (by decide) (by decide)

/-! ## Claim C7: the ResultAggregator -/

theorem mem_archive_of_mem (s : List CaseRecord) (r : CaseRecord) :
    ∀ x ∈ s, x ∈ archive s r := by
  intro x hx
  unfold archive
  split
  · exact hx
  · exact List.mem_cons_of_mem r hx

theorem ingest_keeps_mem (rs : List CaseRecord) :
    ∀ (s : List CaseRecord), ∀ x ∈ s, x ∈ ingest s rs := by
  induction rs with
  | nil => intro s x hx; exact hx
  | cons r rs ih =>
      intro s x hx
      rw [ingest, List.foldl_cons]
      exact ih (archive s r) x (mem_archive_of_mem s r x hx)

theorem ingest_has_id (rs : List CaseRecord) :
    ∀ (s : List CaseRecord) (r : CaseRecord), r ∈ rs →
      ∃ x ∈ ingest s rs, x.caseId = r.caseId := by
  induction rs with
  | nil => intro s r hr; cases hr
  | cons a rs ih =>
      intro s r hr
      rcases List.mem_cons.mp hr with rfl | hr
      · by_cases hs : s.any (fun x => decide (x.caseId = r.caseId)) = true
        · obtain ⟨x, hx, hxid⟩ := List.any_eq_true.mp hs
          rw [decide_eq_true_eq] at hxid
          refine ⟨x, ?_, hxid⟩
          rw [ingest, List.foldl_cons]
          exact ingest_keeps_mem rs _ x (mem_archive_of_mem s r x hx)
        · refine ⟨r, ?_, rfl⟩
          rw [ingest, List.foldl_cons]
          refine ingest_keeps_mem rs _ r ?_
          unfold archive
          rw [if_neg hs]
          exact List.mem_cons_self r s
      · rw [ingest, List.foldl_cons]
        exact ih (archive s a) r hr

theorem ingest_fixed (rs : List CaseRecord) :
    ∀ s : List CaseRecord,
      (∀ r ∈ rs, ∃ x ∈ s, x.caseId = r.caseId) → ingest s rs = s := by
  induction rs with
  | nil => intro s _; rfl
  | cons a rs ih =>
      intro s h
      rw [ingest, List.foldl_cons]
      have hc : s.any (fun x => decide (x.caseId = a.caseId)) = true := by
        obtain ⟨x, hx, hxid⟩ := h a (List.mem_cons_self a rs)
        exact List.any_eq_true.mpr ⟨x, hx, decide_eq_true hxid⟩
      have ha : archive s a = s := by
        unfold archive
        rw [if_pos hc]
      rw [ha]
      exact ih s (fun r hr => h r (List.mem_cons_of_mem a hr))

theorem ingest_all_fresh (rs : List CaseRecord) :
    ∀ s : List CaseRecord,
      (rs.map (fun r => r.caseId)).Nodup →
      (∀ r ∈ rs, ∀ x ∈ s, x.caseId ≠ r.caseId) →
      ingest s rs = rs.reverse ++ s := by
  induction rs with
  | nil => intro s _ _; rfl
  | cons a rs ih =>
      intro s hnd hfresh
      rw [List.map_cons, List.nodup_cons] at hnd
      obtain ⟨hhead, hndrs⟩ := hnd
      rw [ingest, List.foldl_cons]
      have ha : archive s a = a :: s := by
        unfold archive
        rw [if_neg]
        intro hany
        obtain ⟨x, hx, hxid⟩ := List.any_eq_true.mp hany
        rw [decide_eq_true_eq] at hxid
        exact hfresh a (List.mem_cons_self a rs) x hx hxid
      rw [ha]
      have hrec : ingest (a :: s) rs = rs.reverse ++ (a :: s) := by
        refine ih (a :: s) hndrs ?_
        intro r hr x hxmem
        rcases List.mem_cons.mp hxmem with rfl | hxs
        · intro heq
          exact hhead (heq ▸ List.mem_map_of_mem (fun d => d.caseId) hr)
        · exact hfresh r (List.mem_cons_of_mem a hr) x hxs
      rw [ingest] at hrec
      rw [hrec]
      simp

theorem ingest_nil_perm (rs : List CaseRecord)
    (hnd : (rs.map (fun r => r.caseId)).Nodup) :
    (ingest [] rs).Perm rs := by
  have h := ingest_all_fresh rs [] hnd (fun r _ x hx => absurd hx (by simp))
  rw [h, List.append_nil]
  exact List.reverse_perm rs

/-- C7: aggregation is idempotent and order-insensitive: feeding one
completed run's terminal records (distinct case ids) into the aggregator a
second time leaves the archive unchanged, and presenting the records in any
other order yields identical counts per status, per study and per tag. -/
theorem c7_aggregation_idempotent (rs rsp : List CaseRecord)
    (hnd : (rs.map (fun r => r.caseId)).Nodup) (hperm : rsp.Perm rs) :
    ingest (ingest [] rs) rs = ingest [] rs ∧
    (∀ st, count_status (ingest [] rsp) st = count_status (ingest [] rs) st) ∧
    (∀ st sd, count_study (ingest [] rsp) st sd
        = count_study (ingest [] rs) st sd) ∧
    (∀ st tg, count_tag (ingest [] rsp) st tg
        = count_tag (ingest [] rs) st tg) := by
  have hndp : (rsp.map (fun r => r.caseId)).Nodup :=
    ((hperm.map (fun r => r.caseId)).nodup_iff).mpr hnd
  have hagg : (ingest [] rsp).Perm (ingest [] rs) :=
    ((ingest_nil_perm rsp hndp).trans hperm).trans (ingest_nil_perm rs hnd).symm
  refine ⟨ingest_fixed rs (ingest [] rs)
    (fun r hr => ingest_has_id rs [] r hr), ?_, ?_, ?_⟩
  · intro st
    exact (hagg.filter _).length_eq
  · intro st sd
    exact (hagg.filter _).length_eq
  · intro st tg
    exact (hagg.filter _).length_eq

/-- Witness for C7 on a two-record completed run presented in both orders. -/
theorem c7_witness :
    ingest (ingest [] [⟨"S/A", "S", ["tagA"], Status.completed⟩,
        ⟨"S/B", "S", ["tagB"], Status.failed⟩])
      [⟨"S/A", "S", ["tagA"], Status.completed⟩,
        ⟨"S/B", "S", ["tagB"], Status.failed⟩]
      = ingest [] [⟨"S/A", "S", ["tagA"], Status.completed⟩,
        ⟨"S/B", "S", ["tagB"], Status.failed⟩] ∧
    (∀ st, count_status (ingest [] [⟨"S/B", "S", ["tagB"], Status.failed⟩,
        ⟨"S/A", "S", ["tagA"], Status.completed⟩]) st
      = count_status (ingest [] [⟨"S/A", "S", ["tagA"], Status.completed⟩,
        ⟨"S/B", "S", ["tagB"], Status.failed⟩]) st) ∧
    (∀ st sd, count_study (ingest [] [⟨"S/B", "S", ["tagB"], Status.failed⟩,
        ⟨"S/A", "S", ["tagA"], Status.completed⟩]) st sd
      = count_study (ingest [] [⟨"S/A", "S", ["tagA"], Status.completed⟩,
        ⟨"S/B", "S", ["tagB"], Status.failed⟩]) st sd) ∧
    (∀ st tg, count_tag (ingest [] [⟨"S/B", "S", ["tagB"], Status.failed⟩,
        ⟨"S/A", "S", ["tagA"], Status.completed⟩]) st tg
      = count_tag (ingest [] [⟨"S/A", "S", ["tagA"], Status.completed⟩,
        ⟨"S/B", "S", ["tagB"], Status.failed⟩]) st tg) :=
  c7_aggregation_idempotent
    [⟨"S/A", "S", ["tagA"], Status.completed⟩,
      ⟨"S/B", "S", ["tagB"], Status.failed⟩]
    [⟨"S/B", "S", ["tagB"], Status.failed⟩,
      ⟨"S/A", "S", ["tagA"], Status.completed⟩]
    (by decide) (by decide)

/-! ## Claim C6: failure isolation -/

theorem mem_prereqs_of (edges : List (String × String)) (c p : String) :
    p ∈ prereqs_of edges c ↔ (p, c) ∈ edges := by
  unfold prereqs_of
  rw [List.mem_map]
  constructor
  · rintro ⟨e, he, rfl⟩
    rw [List.mem_filter] at he
    obtain ⟨he1, he2⟩ := he
    rw [decide_eq_true_eq] at he2
    rcases e with ⟨p', c'⟩
    cases he2
    exact he1
  · intro h
    exact ⟨(p, c), List.mem_filter.mpr ⟨h, by simp⟩, rfl⟩

theorem depPath_last (edges : List (String × String)) (b c : String)
    (h : DepPath edges b c) :
    ∃ p, (p, c) ∈ edges ∧ (p = b ∨ DepPath edges b p) := by
  cases h with
  | single he => exact ⟨b, he, Or.inl rfl⟩
  | snoc hp he => exact ⟨_, he, Or.inr hp⟩

theorem run_cases_char (edges : List (String × String)) (f : String → Bool)
    (hirr : ∀ pc ∈ edges, pc.1 ≠ pc.2) :
    ∀ (rest done : List String) (m : String → Option Status),
      (done ++ rest).Nodup →
      (∀ pc ∈ edges, pc.1 ∈ done ++ rest ∧ pc.2 ∈ done ++ rest) →
      (done ++ rest).Pairwise (fun x y => (y, x) ∉ edges) →
      (∀ x, x ∉ done → m x = none) →
      (∀ x ∈ done,
        (Blocked edges f x → m x = some Status.skipped) ∧
        (¬ Blocked edges f x →
          m x = some (if f x then Status.completed else Status.failed))) →
      ∀ c ∈ done ++ rest,
        (Blocked edges f c →
          run_cases edges f rest m c = some Status.skipped) ∧
        (¬ Blocked edges f c →
          run_cases edges f rest m c
            = some (if f c then Status.completed else Status.failed)) := by
  intro rest
  induction rest with
  | nil =>
      intro done m hnd hclosed htopo hmn hmd c hc
      rw [List.append_nil] at hc
      exact hmd c hc
  | cons c0 rest ih =>
      intro done m hnd hclosed htopo hmn hmd c hc
      -- structural facts about the split done / c0 / rest
      have hnd' := hnd
      rw [List.nodup_append] at hnd'
      obtain ⟨hnd_done, hnd_cons, hdisj⟩ := hnd'
      have hc0_done : c0 ∉ done := fun h => hdisj h (List.mem_cons_self c0 rest)
      have htopo' := htopo
      rw [List.pairwise_append] at htopo'
      obtain ⟨hp_done, hp_cons, hp_cross⟩ := htopo'
      rw [List.pairwise_cons] at hp_cons
      obtain ⟨hc0_rest, hp_rest⟩ := hp_cons
      -- every prerequisite of c0 is already processed
      have hpred_done : ∀ p, (p, c0) ∈ edges → p ∈ done := by
        intro p hedge
        have hp := (hclosed _ hedge).1
        rcases List.mem_append.mp hp with h | h
        · exact h
        · rcases List.mem_cons.mp h with h | h
          · exact absurd h (hirr _ hedge)
          · exact absurd hedge (hc0_rest p h)
      -- the blocking test on c0 agrees with the path characterization
      have hkey : ((prereqs_of edges c0).any (fun p => status_blocks (m p)) = true)
          ↔ Blocked edges f c0 := by
        constructor
        · intro hb
          obtain ⟨p, hpmem, hpblk⟩ := List.any_eq_true.mp hb
          rw [mem_prereqs_of] at hpmem
          have hpdone : p ∈ done := by
            by_cases hd : p ∈ done
            · exact hd
            · rw [hmn p hd] at hpblk
              simp [status_blocks] at hpblk
          rcases Classical.em (Blocked edges f p) with hB | hB
          · obtain ⟨b, hbf, hbp⟩ := hB
            exact ⟨b, hbf, DepPath.snoc hbp hpmem⟩
          · have hmp := (hmd p hpdone).2 hB
            rw [hmp] at hpblk
            by_cases hfp : f p = true
            · rw [if_pos hfp] at hpblk
              simp [status_blocks] at hpblk
            · have hfp' : f p = false := by
                cases hq : f p
                · rfl
                · exact absurd hq hfp
              exact ⟨p, hfp', DepPath.single hpmem⟩
        · rintro ⟨b, hbf, hpath⟩
          obtain ⟨p, hedge, hrest⟩ := depPath_last edges b c0 hpath
          have hpdone : p ∈ done := hpred_done p hedge
          rw [List.any_eq_true]
          refine ⟨p, (mem_prereqs_of edges c0 p).mpr hedge, ?_⟩
          rcases Classical.em (Blocked edges f p) with hB | hB
          · rw [(hmd p hpdone).1 hB]
            rfl
          · rcases hrest with rfl | hp
            · rw [(hmd p hpdone).2 hB, if_neg (by rw [hbf]; simp)]
              rfl
            · exact absurd ⟨b, hbf, hp⟩ hB
      -- rearrange the split for the induction hypothesis
      have hassoc : done ++ c0 :: rest = (done ++ [c0]) ++ rest := by simp
      rw [hassoc] at hnd hclosed htopo hc
      rcases Classical.em (Blocked edges f c0) with hB0 | hB0
      · -- c0 is recorded SKIPPED
        have hbool : (prereqs_of edges c0).any (fun p => status_blocks (m p))
            = true := hkey.mpr hB0
        have hstv : (if (prereqs_of edges c0).any (fun p => status_blocks (m p))
            then Status.skipped
            else if f c0 then Status.completed else Status.failed)
            = Status.skipped := by
          simp [hbool]
        have hfun : (fun x => if x = c0 then
              some (if (prereqs_of edges c0).any (fun p => status_blocks (m p))
                then Status.skipped
                else if f c0 then Status.completed else Status.failed)
              else m x)
            = (fun x => if x = c0 then some Status.skipped else m x) := by
          funext x
          rw [hstv]
        have heq : run_cases edges f (c0 :: rest) m
            = run_cases edges f rest
                (fun x => if x = c0 then some Status.skipped else m x) := by
          calc run_cases edges f (c0 :: rest) m
              = run_cases edges f rest
                  (fun x => if x = c0 then
                    some (if (prereqs_of edges c0).any (fun p => status_blocks (m p))
                      then Status.skipped
                      else if f c0 then Status.completed else Status.failed)
                    else m x) := rfl
            _ = _ := by rw [hfun]
        have hIH := ih (done ++ [c0])
          (fun x => if x = c0 then some Status.skipped else m x)
          hnd hclosed htopo
          (by
            intro x hx
            have hx1 : x ∉ done := fun h => hx (List.mem_append.mpr (Or.inl h))
            have hx2 : x ≠ c0 := fun h => hx (List.mem_append.mpr
              (Or.inr (h ▸ List.mem_singleton_self c0)))
            simp only [if_neg hx2]
            exact hmn x hx1)
          (by
            intro x hx
            rcases List.mem_append.mp hx with hxd | hxc
            · have hxne : x ≠ c0 := fun h => hc0_done (h ▸ hxd)
              constructor
              · intro hBx
                simp only [if_neg hxne]
                exact (hmd x hxd).1 hBx
              · intro hBx
                simp only [if_neg hxne]
                exact (hmd x hxd).2 hBx
            · rw [List.mem_singleton.mp hxc]
              constructor
              · intro _
                simp
              · intro hBx
                exact absurd hB0 hBx)
        have hres := hIH c hc
        rw [heq]
        exact hres
      · -- c0 runs: it is recorded COMPLETED or FAILED by its own outcome
        have hbool : (prereqs_of edges c0).any (fun p => status_blocks (m p))
            = false := by
          cases hq : (prereqs_of edges c0).any (fun p => status_blocks (m p))
          · rfl
          · exact absurd (hkey.mp hq) hB0
        have hstv : (if (prereqs_of edges c0).any (fun p => status_blocks (m p))
            then Status.skipped
            else if f c0 then Status.completed else Status.failed)
            = if f c0 then Status.completed else Status.failed := by
          simp [hbool]
        have hfun : (fun x => if x = c0 then
              some (if (prereqs_of edges c0).any (fun p => status_blocks (m p))
                then Status.skipped
                else if f c0 then Status.completed else Status.failed)
              else m x)
            = (fun x => if x = c0 then
                some (if f c0 then Status.completed else Status.failed)
                else m x) := by
          funext x
          rw [hstv]
        have heq : run_cases edges f (c0 :: rest) m
            = run_cases edges f rest
                (fun x => if x = c0 then
                  some (if f c0 then Status.completed else Status.failed)
                  else m x) := by
          calc run_cases edges f (c0 :: rest) m
              = run_cases edges f rest
                  (fun x => if x = c0 then
                    some (if (prereqs_of edges c0).any (fun p => status_blocks (m p))
                      then Status.skipped
                      else if f c0 then Status.completed else Status.failed)
                    else m x) := rfl
            _ = _ := by rw [hfun]
        have hIH := ih (done ++ [c0])
          (fun x => if x = c0 then
            some (if f c0 then Status.completed else Status.failed) else m x)
          hnd hclosed htopo
          (by
            intro x hx
            have hx1 : x ∉ done := fun h => hx (List.mem_append.mpr (Or.inl h))
            have hx2 : x ≠ c0 := fun h => hx (List.mem_append.mpr
              (Or.inr (h ▸ List.mem_singleton_self c0)))
            simp only [if_neg hx2]
            exact hmn x hx1)
          (by
            intro x hx
            rcases List.mem_append.mp hx with hxd | hxc
            · have hxne : x ≠ c0 := fun h => hc0_done (h ▸ hxd)
              constructor
              · intro hBx
                simp only [if_neg hxne]
                exact (hmd x hxd).1 hBx
              · intro hBx
                simp only [if_neg hxne]
                exact (hmd x hxd).2 hBx
            · rw [List.mem_singleton.mp hxc]
              constructor
              · intro hBx
                exact absurd hBx hB0
              · intro _
                simp)
        have hres := hIH c hc
        rw [heq]
        exact hres

/-- C6: failure is isolated to transitive dependents and nothing else.  In a
run whose only intrinsically failing case is `a`, a case ends SKIPPED exactly
when it transitively depends on `a`; and every case other than `a` without a
dependency path from `a` gets the same final status in the two runs that
differ only in whether `a` succeeds. -/
theorem c6_failure_isolation (edges : List (String × String))
    (ord : List String) (f g : String → Bool) (a : String)
    (hnd : ord.Nodup)
    (hclosed : ∀ pc ∈ edges, pc.1 ∈ ord ∧ pc.2 ∈ ord)
    (hirr : ∀ pc ∈ edges, pc.1 ≠ pc.2)
    (htopo : ord.Pairwise (fun x y => (y, x) ∉ edges))
    (hf : ∀ c, f c = false ↔ c = a)
    (hg : ∀ c, c ≠ a → g c = f c) :
    (∀ c ∈ ord,
      (final_status edges ord f c = some Status.skipped ↔ DepPath edges a c)) ∧
    (∀ c ∈ ord, c ≠ a → ¬ DepPath edges a c →
      final_status edges ord g c = final_status edges ord f c) := by
  have hmf := run_cases_char edges f hirr ord [] (fun _ => none)
    hnd hclosed htopo (fun x _ => rfl)
    (fun x hx => absurd hx (List.not_mem_nil x))
  constructor
  · intro c hc
    have hm := hmf c hc
    constructor
    · intro hfin
      rcases Classical.em (Blocked edges f c) with hB | hB
      · obtain ⟨b, hbf, hpath⟩ := hB
        rwa [(hf b).mp hbf] at hpath
      · exfalso
        have h2 := hm.2 hB
        unfold final_status at hfin
        rw [hfin] at h2
        by_cases hfc : f c = true
        · simp [hfc] at h2
        · have hfc' : f c = false := by
            cases hq : f c
            · rfl
            · exact absurd hq hfc
          simp [hfc'] at h2
    · intro hpath
      exact hm.1 ⟨a, (hf a).mpr rfl, hpath⟩
  · intro c hc hca hnp
    have hnbf : ¬ Blocked edges f c := by
      rintro ⟨b, hbf, hpath⟩
      rw [(hf b).mp hbf] at hpath
      exact hnp hpath
    have hnbg : ¬ Blocked edges g c := by
      rintro ⟨b, hbg, hpath⟩
      by_cases hba : b = a
      · rw [hba] at hpath
        exact hnp hpath
      · rw [hg b hba] at hbg
        rw [(hf b).mp hbg] at hpath
        exact hnp hpath
    have hmg := run_cases_char edges g hirr ord [] (fun _ => none)
      hnd hclosed htopo (fun x _ => rfl)
      (fun x hx => absurd hx (List.not_mem_nil x))
    have h1 := (hmf c hc).2 hnbf
    have h2 := (hmg c hc).2 hnbg
    unfold final_status
    rw [h1, h2, hg c hca]

/-- Witness for C6: the graph A → B → C with independent D, where only A
fails.  B and C end SKIPPED, A itself ends FAILED, D ends COMPLETED, and D
gets the same outcome in the all-successful run. -/
theorem c6_witness :
    ((∀ c ∈ ["A", "B", "C", "D"],
        (final_status [("A", "B"), ("B", "C")] ["A", "B", "C", "D"]
            (fun c => ! decide (c = "A")) c = some Status.skipped ↔
          DepPath [("A", "B"), ("B", "C")] "A" c)) ∧
      (∀ c ∈ ["A", "B", "C", "D"], c ≠ "A" →
        ¬ DepPath [("A", "B"), ("B", "C")] "A" c →
        final_status [("A", "B"), ("B", "C")] ["A", "B", "C", "D"]
            (fun _ => true) c
          = final_status [("A", "B"), ("B", "C")] ["A", "B", "C", "D"]
            (fun c => ! decide (c = "A")) c)) ∧
    final_status [("A", "B"), ("B", "C")] ["A", "B", "C", "D"]
        (fun c => ! decide (c = "A")) "A" = some Status.failed ∧
    final_status [("A", "B"), ("B", "C")] ["A", "B", "C", "D"]
        (fun c => ! decide (c = "A")) "B" = some Status.skipped ∧
    final_status [("A", "B"), ("B", "C")] ["A", "B", "C", "D"]
        (fun c => ! decide (c = "A")) "C" = some Status.skipped ∧
    final_status [("A", "B"), ("B", "C")] ["A", "B", "C", "D"]
        (fun c => ! decide (c = "A")) "D" = some Status.completed ∧
    final_status [("A", "B"), ("B", "C")] ["A", "B", "C", "D"]
        (fun _ => true) "D" = some Status.completed :=
  ⟨c6_failure_isolation [("A", "B"), ("B", "C")] ["A", "B", "C", "D"]
      (fun c => ! decide (c = "A")) (fun _ => true) "A"
      (by decide) (by decide) (by decide) (by decide)
      (by intro c; simp) (by intro c hca; simp [hca]),
    by decide, by decide, by decide, by decide, by decide⟩

end StudyManager
